import Mathlib

/-!
# In-memory cache with time based expiry

A shallow embedding of `cache.go`, `error.go` and `filetype.go`.

* A Go `map[string]V` is a `Finmap` over `String` keys: at most one entry per
  key, no order, equality is equality of the key/value relation.
* Every reading of the clock is an explicit argument.  An operation that reads
  the clock once takes the reading `now`; `Expire`, which calls `time.Since`
  once for every entry it visits, takes the reading of each of these calls.
  A `time.Time` is an integer count of nanoseconds since the zero `time.Time`;
  a `time.Duration` is an integer count of nanoseconds.
* The reader/writer lock is not part of the sequential model: every operation is
  a function from the state before the call to the state after it and the
  returned values.
* A Go result pair `(*T, error)` is a pair of options, `none` standing for `nil`.
-/

namespace cache

/-! ## error.go -/

/-- The error kinds of `error.go`, and one constructor for the errors handed
back by the operating system and the decoders in `Load`. -/
inductive Error where
  | InvalidCacheKeyError
  | OutdatedCacheEntryError
  | KeyAlreadyExistsError
  | UnknownFileFormatError
  | External (msg : String)
deriving DecidableEq, Repr

set_option linter.dupNamespace false in
/-- Method `Error()` of the four error types. -/
def Error.Error : Error → String
  | .InvalidCacheKeyError => "key does not exist"
  | .OutdatedCacheEntryError => "entry is expired"
  | .KeyAlreadyExistsError => "key already exists"
  | .UnknownFileFormatError => "format unknown"
  | .External msg => msg

/-! ## filetype.go -/

/-- Type `FileFormat int`. -/
abbrev FileFormat := Int

/-- Constant `Json FileFormat = iota`. -/
def Json : FileFormat := 0

/-- Constant `Yaml`, the second of the `iota` block. -/
def Yaml : FileFormat := 1

/-- Method `FileFormat.String`. -/
def FileFormat.String (s : FileFormat) : String :=
  if s = Json then "json"
  else if s = Yaml then "yaml"
  else "unknown"

/-! ## Time -/

/-- Smallest `time.Duration`, `-1 << 63` nanoseconds. -/
def minDuration : Int := -9223372036854775808

/-- Largest `time.Duration`, `1<<63 - 1` nanoseconds. -/
def maxDuration : Int := 9223372036854775807

/-- The zero `time.Time`, the value of a `time.Time` field nobody wrote. -/
def zeroTime : Int := 0

/-- Method `Time.Sub`: the duration `t - u`, saturated at the smallest and the
largest duration. -/
def Sub (t u : Int) : Int :=
  if t - u < minDuration then minDuration
  else if maxDuration < t - u then maxDuration
  else t - u

/-- Function `time.Since(t)` called when the clock reads `now`: `now.Sub(t)`. -/
def Since (now t : Int) : Int := Sub now t

/-! ## cache.go -/

/-- Struct `cacheEntry[T]`. -/
structure cacheEntry (T : Type) where
  Value : T
  update : Int
deriving DecidableEq, Repr

/-- Struct `Cache[T]`, without its lock. -/
structure Cache (T : Type) where
  cache : Finmap (fun _ : String => cacheEntry T)
  expire : Int
deriving DecidableEq

/-- Function `NewCache`. -/
def NewCache {T : Type} (cacheExpiry : Int) : Cache T :=
  { cache := ∅, expire := cacheExpiry }

/-- Method `Cache.Get`: the state after the call, the value and the error. -/
def Get {T : Type} (c : Cache T) (key : String) (now : Int) :
    Cache T × Option T × Option Error :=
  match c.cache.lookup key with
  | some entry =>
    if Since now entry.update ≥ c.expire then
      ({ c with cache := c.cache.erase key }, none, some Error.OutdatedCacheEntryError)
    else
      (c, some entry.Value, none)
  | none => (c, none, some Error.InvalidCacheKeyError)

/-- Method `Cache.Upsert`. -/
def Upsert {T : Type} (c : Cache T) (key : String) (value : T) (now : Int) : Cache T :=
  { c with cache := c.cache.insert key { Value := value, update := now } }

/-- Method `Cache.Insert`: the state after the call and the error. -/
def Insert {T : Type} (c : Cache T) (key : String) (value : T) (now : Int) :
    Cache T × Option Error :=
  match c.cache.lookup key with
  | some _ => (c, some Error.KeyAlreadyExistsError)
  | none =>
    ({ c with cache := c.cache.insert key { Value := value, update := now } }, none)

/-- Method `Cache.BulkUpsert`.  The argument `values` is the input map; its
entries are visited in the order `range` yields them. -/
def BulkUpsert {T : Type} (c : Cache T) (values : AList (fun _ : String => T))
    (now : Int) : Cache T :=
  values.entries.foldl
    (fun c kv => { c with cache := c.cache.insert kv.1 { Value := kv.2, update := now } })
    c

/-- One turn of the loop of `Cache.BulkInsert`, on the pair of the cache and of
`existingObjects`. -/
def BulkInsert.step {T : Type} (now : Int)
    (st : Cache T × Finmap (fun _ : String => T)) (kv : Sigma (fun _ : String => T)) :
    Cache T × Finmap (fun _ : String => T) :=
  match st.1.cache.lookup kv.1 with
  | some _ => (st.1, st.2.insert kv.1 kv.2)
  | none =>
    ({ st.1 with cache := st.1.cache.insert kv.1 { Value := kv.2, update := now } }, st.2)

/-- Method `Cache.BulkInsert`: the state after the call, the map of the pairs
that were not inserted (`none` for `nil`) and the error. -/
def BulkInsert {T : Type} (c : Cache T) (values : AList (fun _ : String => T))
    (now : Int) :
    Cache T × Option (Finmap (fun _ : String => T)) × Option Error :=
  let st := values.entries.foldl (BulkInsert.step now) (c, ∅)
  if st.2.keys.card ≠ 0 then
    (st.1, some st.2, some Error.KeyAlreadyExistsError)
  else
    (st.1, none, none)

/-- One turn of the loop of `Cache.Expire`, on the map.  The call of
`time.Since` in the turn that visits `key` reads the clock at `clock key`. -/
def Expire.step {T : Type} (expire : Int) (clock : String → Int)
    (m : Finmap (fun _ : String => cacheEntry T)) (key : String) (value : cacheEntry T) :
    Finmap (fun _ : String => cacheEntry T) :=
  if Since (clock key) value.update ≥ expire then m.erase key else m

/-- Method `Cache.Expire`.  The loop ranges over the entries of the map in no
particular order and deletes from the same map.  Every turn calls `time.Since`,
so the clock is read once for every entry: `clock key` is the reading in the
turn that visits `key`. -/
def Expire {T : Type} (c : Cache T) (clock : String → Int) : Cache T :=
  { c with
    cache := Finmap.foldl (Expire.step c.expire clock)
      (by
        intro d a₁ b₁ a₂ b₂
        unfold Expire.step
        split_ifs <;> first | rfl | exact Finmap.erase_erase)
      c.cache c.cache }

/-- Method `Cache.Flush`. -/
def Flush {T : Type} (c : Cache T) : Cache T :=
  { c with cache := ∅ }

/-- Method `Cache.Delete`. -/
def Delete {T : Type} (c : Cache T) (key : String) : Cache T :=
  { c with cache := c.cache.erase key }

/-- Method `Cache.Size`: the state after the call and the number of entries. -/
def Size {T : Type} (c : Cache T) : Cache T × Nat :=
  (c, c.cache.keys.card)

/-- What `Load` uses from outside of the package: `filepath.Abs`, `os.ReadFile`
and the two decoders.  A decoder reads the bytes as one object and gives the
members it decoded, in the order of the document, each with the key and the
decoded field `Value`, and the error it ends with. -/
structure Env (T : Type) where
  Abs : String → Except Error String
  ReadFile : String → Except Error (List Nat)
  jsonDecode : List Nat → List (Sigma (fun _ : String => T)) × Option Error
  yamlDecode : List Nat → List (Sigma (fun _ : String => T)) × Option Error

/-- Call `Unmarshal(byteValue, &c.cache)` of `encoding/json` and of `yaml.v3` on
a map that is not `nil`: the map is reused and keeps its entries, and each
decoded member is stored under its key as a new element.  Field `update` is not
exported, no decoder writes it, so the new element has the zero time. -/
def Unmarshal {T : Type} (decoded : List (Sigma (fun _ : String => T)) × Option Error)
    (m : Finmap (fun _ : String => cacheEntry T)) :
    Finmap (fun _ : String => cacheEntry T) × Option Error :=
  (decoded.1.foldl (fun m kv => m.insert kv.1 { Value := kv.2, update := zeroTime }) m,
    decoded.2)

/-- One turn of the last loop of `Cache.Load`, on the map: the assignment
`v.update = currentTime` writes the loop variable `v`, a copy of the element,
and the map is not written. -/
def Load.step {T : Type} (currentTime : Int)
    (m : Finmap (fun _ : String => cacheEntry T)) (_key : String) (v : cacheEntry T) :
    Finmap (fun _ : String => cacheEntry T) :=
  let _v : cacheEntry T := { v with update := currentTime }
  m

/-- Method `Cache.Load`: the state after the call and the error. -/
def Load {T : Type} (env : Env T) (c : Cache T) (filePath : String)
    (fileFormat : FileFormat) (now : Int) : Cache T × Option Error :=
  match env.Abs filePath with
  | .error err => (c, some err)
  | .ok absPath =>
    match env.ReadFile absPath with
    | .error err => (c, some err)
    | .ok byteValue =>
      let decoded : Option (Finmap (fun _ : String => cacheEntry T) × Option Error) :=
        if fileFormat = Json then some (Unmarshal (env.jsonDecode byteValue) c.cache)
        else if fileFormat = Yaml then some (Unmarshal (env.yamlDecode byteValue) c.cache)
        else none
      match decoded with
      | none => (c, some Error.UnknownFileFormatError)
      | some (m, some err) => ({ c with cache := m }, some err)
      | some (m, none) =>
        ({ c with
            cache := Finmap.foldl (Load.step now) (fun _ _ _ _ _ => rfl) m m }, none)

/-- The state `BulkUpsert` is to reach: `Upsert` applied, at the one time `now`,
to every pair of the input map, in the order the pairs are visited. -/
def BulkUpsert_spec {T : Type} (c : Cache T) (values : AList (fun _ : String => T))
    (now : Int) : Cache T :=
  values.entries.foldl (fun c kv => Upsert c kv.1 kv.2 now) c

/-! ## Freshness and the operations as data -/

/-- Freshness of the data model: the key holds an entry and the time since its
last write is below the expiry. -/
def isFresh {T : Type} (c : Cache T) (key : String) (now : Int) : Bool :=
  match c.cache.lookup key with
  | some entry => decide (Since now entry.update < c.expire)
  | none => false

/-- Staleness of the data model: the key holds an entry and the time since its
last write is at least the expiry. -/
def isStale {T : Type} (c : Cache T) (key : String) (now : Int) : Bool :=
  match c.cache.lookup key with
  | some entry => decide (Since now entry.update ≥ c.expire)
  | none => false

/-- The calls of the cache engine, with their arguments. -/
inductive Op (T : Type) where
  | get (key : String)
  | upsert (key : String) (value : T)
  | insert (key : String) (value : T)
  | bulkUpsert (values : AList (fun _ : String => T))
  | bulkInsert (values : AList (fun _ : String => T))
  | expire (clock : String → Int)
  | flush
  | delete (key : String)
  | size

/-- The state after one call of the engine made when the clock reads `now`; a
call of `Expire` comes with the readings of its loop. -/
def runOp {T : Type} (op : Op T) (c : Cache T) (now : Int) : Cache T :=
  match op with
  | .get key => (Get c key now).1
  | .upsert key value => Upsert c key value now
  | .insert key value => (Insert c key value now).1
  | .bulkUpsert values => BulkUpsert c values now
  | .bulkInsert values => (BulkInsert c values now).1
  | .expire clock => Expire c clock
  | .flush => Flush c
  | .delete key => Delete c key
  | .size => (Size c).1

/-! ## The lock -/

/-- What a method does with `c.lock` and with the map `c.cache`, in the order
of the program: the four calls on the `sync.RWMutex`, a read of the map and a
write of the map (an assignment or a `delete`). -/
inductive Event where
  | RLock
  | RUnlock
  | Lock
  | Unlock
  | read
  | write
deriving DecidableEq, Repr

/-- How the lock is held by the method that runs. -/
inductive Guard where
  | free
  | shared
  | exclusive
deriving DecidableEq, Repr

/-- Events of `Cache.Get`, lines 119 to 136. -/
def Get.events {T : Type} (c : Cache T) (key : String) (now : Int) : List Event :=
  [Event.RLock, Event.read] ++
    match c.cache.lookup key with
    | some entry =>
      if Since now entry.update ≥ c.expire then [Event.write, Event.RUnlock]
      else [Event.RUnlock]
    | none => [Event.RUnlock]

/-- Events of `Cache.Upsert`. -/
def Upsert.events : List Event :=
  [Event.Lock, Event.write, Event.Unlock]

/-- Events of `Cache.Insert`. -/
def Insert.events {T : Type} (c : Cache T) (key : String) : List Event :=
  [Event.Lock, Event.read] ++
    match c.cache.lookup key with
    | some _ => [Event.Unlock]
    | none => [Event.write, Event.Unlock]

/-- Events of `Cache.Flush`. -/
def Flush.events : List Event :=
  [Event.Lock, Event.write, Event.Unlock]

/-- Events of `Cache.Delete`. -/
def Delete.events : List Event :=
  [Event.Lock, Event.write, Event.Unlock]

/-- Every write of the map in the list of events happens while the lock is
held in its exclusive form; the first argument is how the lock is held before
the first event. -/
def writesExclusive : Guard → List Event → Bool
  | _, [] => true
  | _, Event.RLock :: es => writesExclusive Guard.shared es
  | _, Event.RUnlock :: es => writesExclusive Guard.free es
  | _, Event.Lock :: es => writesExclusive Guard.exclusive es
  | _, Event.Unlock :: es => writesExclusive Guard.free es
  | g, Event.read :: es => writesExclusive g es
  | g, Event.write :: es => decide (g = Guard.exclusive) && writesExclusive g es

/-! ## Sample states -/

/-- A cache of expiry 10 holding `"a"` written at time 0 and `"b"` written at
time 5. -/
def sample : Cache Nat :=
  { cache := Finmap.insert "b" { Value := 2, update := 5 }
      (Finmap.insert "a" { Value := 1, update := 0 } ∅),
    expire := 10 }

/-- A cache of expiry 10 holding `"x"` and `"y"`, both written at time 0. -/
def twins : Cache Nat :=
  { cache := Finmap.insert "y" { Value := 2, update := 0 }
      (Finmap.insert "x" { Value := 1, update := 0 } ∅),
    expire := 10 }

/-- Readings of a clock that ticks inside the loop of `Expire`: 9 in the turn
that visits `"x"` and 10 in every other turn. -/
def tickingClock (key : String) : Int :=
  if key = "x" then 9 else 10

/-- An outside world where every path resolves to itself, every file is read
and both decoders find the one member `"0"` with `Value` 7. -/
def sampleEnv : Env Nat :=
  { Abs := fun filePath => .ok filePath,
    ReadFile := fun _ => .ok [],
    jsonDecode := fun _ => ([⟨"0", 7⟩], none),
    yamlDecode := fun _ => ([⟨"0", 7⟩], none) }

/-- An input map with the keys `"a"` and `"z"`, visited in that order. -/
def sampleValues : AList (fun _ : String => Nat) :=
  AList.insert "a" 7 (AList.insert "z" 8 ∅)

/-- The input map of `sampleValues`, visited in the other order. -/
def sampleValuesRev : AList (fun _ : String => Nat) :=
  AList.insert "z" 8 (AList.insert "a" 7 ∅)

/-- A clock reading in the year 2026, in nanoseconds since the zero time. -/
def sampleNow : Int := 63900000000000000000

/-! ## Lemmas on the time difference -/

/-- Inside the range of a duration, `Since` is the difference of the two times. -/
theorem Since_eq_sub (now t : Int) (h₁ : minDuration ≤ now - t)
    (h₂ : now - t ≤ maxDuration) : Since now t = now - t := by
  unfold Since Sub
  rw [if_neg (by omega), if_neg (by omega)]

/-- For a time `t` that is not after `now` and a duration `d`, comparing
`Since now t` with `d` is comparing the difference `now - t` with `d`. -/
theorem Since_ge_iff (now t d : Int) (h : t ≤ now) (hd : d ≤ maxDuration) :
    Since now t ≥ d ↔ now - t ≥ d := by
  unfold Since Sub
  unfold maxDuration at hd
  unfold minDuration maxDuration
  split_ifs <;> omega

/-! ## Lemmas on the loops -/

/-- A fold over a map given by an association list is the fold over the
entries of the list. -/
theorem foldl_toFinmap {β : String → Type} {δ : Type} (f : δ → ∀ a, β a → δ)
    (H : ∀ d a₁ b₁ a₂ b₂, f (f d a₁ b₁) a₂ b₂ = f (f d a₂ b₂) a₁ b₁) (d : δ)
    (s : AList β) :
    Finmap.foldl f H d s.toFinmap = s.entries.foldl (fun d kv => f d kv.1 kv.2) d := rfl

open Classical in
/-- Looking a key up after the loop of `Expire` over a list of entries. -/
theorem lookup_foldl_Expire_step {T : Type} (expire : Int) (clock : String → Int)
    (k : String) (l : List (Sigma (fun _ : String => cacheEntry T)))
    (m : Finmap (fun _ : String => cacheEntry T)) :
    (l.foldl (fun d kv => Expire.step expire clock d kv.1 kv.2) m).lookup k =
      if ∃ e, (⟨k, e⟩ : Sigma (fun _ : String => cacheEntry T)) ∈ l ∧
          Since (clock k) e.update ≥ expire then none
      else m.lookup k := by
  induction l generalizing m with
  | nil => simp
  | cons x l ih =>
    rw [List.foldl_cons, ih]
    obtain ⟨a, b⟩ := x
    by_cases h1 : ∃ e, (⟨k, e⟩ : Sigma (fun _ : String => cacheEntry T)) ∈ l ∧
        Since (clock k) e.update ≥ expire
    · have h2 : ∃ e, (⟨k, e⟩ : Sigma (fun _ : String => cacheEntry T)) ∈ ⟨a, b⟩ :: l ∧
          Since (clock k) e.update ≥ expire := by
        obtain ⟨e, he, hs⟩ := h1
        exact ⟨e, List.mem_cons_of_mem _ he, hs⟩
      rw [if_pos h1, if_pos h2]
    · rw [if_neg h1]
      unfold Expire.step
      by_cases hs : Since (clock a) b.update ≥ expire
      · rw [if_pos hs]
        by_cases hk : k = a
        · subst hk
          rw [Finmap.lookup_erase, if_pos ⟨b, List.mem_cons_self _ _, hs⟩]
        · rw [Finmap.lookup_erase_ne hk, if_neg]
          rintro ⟨e, he, hse⟩
          rcases List.mem_cons.mp he with heq | hmem
          · exact hk (by cases heq; rfl)
          · exact h1 ⟨e, hmem, hse⟩
      · rw [if_neg hs, if_neg]
        rintro ⟨e, he, hse⟩
        rcases List.mem_cons.mp he with heq | hmem
        · cases heq
          exact hs hse
        · exact h1 ⟨e, hmem, hse⟩

/-- Looking a key up after `Expire`: the entry it had, when that entry is fresh
at the reading of the clock in the turn that visits the key. -/
theorem Expire_lookup {T : Type} (c : Cache T) (clock : String → Int) (k : String) :
    (Expire c clock).cache.lookup k =
      (c.cache.lookup k).filter
        (fun e => decide (Since (clock k) e.update < c.expire)) := by
  obtain ⟨m, expire⟩ := c
  induction m using Finmap.induction_on with
  | H s =>
    simp only [Expire]
    rw [foldl_toFinmap, lookup_foldl_Expire_step, Finmap.lookup_toFinmap]
    cases hl : s.lookup k with
    | none =>
      simp
    | some e =>
      have hmem : (⟨k, e⟩ : Sigma (fun _ : String => cacheEntry T)) ∈ s.entries :=
        AList.mem_lookup_iff.mp hl
      by_cases hs : Since (clock k) e.update ≥ expire
      · rw [if_pos ⟨e, hmem, hs⟩]
        simp [Option.filter, not_lt.mpr hs]
      · rw [if_neg]
        · simp [Option.filter, not_le.mp hs]
        · rintro ⟨e', he', hse'⟩
          have : s.lookup k = some e' := AList.mem_lookup_iff.mpr he'
          rw [hl] at this
          cases this
          exact hs hse'

/-- Looking a key up after the loop of `BulkUpsert` over a list of pairs with no
key twice. -/
theorem lookup_foldl_insert {T : Type} (now : Int) (k : String)
    (l : List (Sigma (fun _ : String => T))) (hl : l.NodupKeys) (c : Cache T) :
    (l.foldl (fun c kv =>
        { c with cache := c.cache.insert kv.1 { Value := kv.2, update := now } })
      c).cache.lookup k =
      match l.dlookup k with
      | some v => some { Value := v, update := now }
      | none => c.cache.lookup k := by
  induction l generalizing c with
  | nil => simp
  | cons x l ih =>
    obtain ⟨a, b⟩ := x
    obtain ⟨ha, hl'⟩ := List.nodupKeys_cons.mp hl
    rw [List.foldl_cons, ih hl']
    by_cases hk : k = a
    · subst hk
      rw [List.dlookup_eq_none.mpr ha, List.dlookup_cons_eq]
      simp [Finmap.lookup_insert]
    · rw [List.dlookup_cons_ne _ _ hk]
      simp [Finmap.lookup_insert_of_ne _ hk]

/-- The loop of `BulkUpsert` keeps the expiry. -/
theorem foldl_insert_expire {T : Type} (now : Int)
    (l : List (Sigma (fun _ : String => T))) (c : Cache T) :
    (l.foldl (fun c kv =>
        { c with cache := c.cache.insert kv.1 { Value := kv.2, update := now } })
      c).expire = c.expire := by
  induction l generalizing c with
  | nil => rfl
  | cons x l ih => rw [List.foldl_cons, ih]

/-- The cache and `existingObjects` after the loop of `BulkInsert` over a list
of pairs with no key twice. -/
theorem foldl_BulkInsert_step {T : Type} (now : Int) (k : String)
    (l : List (Sigma (fun _ : String => T))) (hl : l.NodupKeys)
    (st : Cache T × Finmap (fun _ : String => T)) :
    ((l.foldl (BulkInsert.step now) st).1.cache.lookup k =
      match st.1.cache.lookup k with
      | some e => some e
      | none => (l.dlookup k).map (fun v => { Value := v, update := now })) ∧
    ((l.foldl (BulkInsert.step now) st).2.lookup k =
      match st.1.cache.lookup k, l.dlookup k with
      | some _, some v => some v
      | _, _ => st.2.lookup k) ∧
    (l.foldl (BulkInsert.step now) st).1.expire = st.1.expire := by
  induction l generalizing st with
  | nil =>
    refine ⟨?_, ?_, rfl⟩
    · cases h : st.1.cache.lookup k <;> simp [h]
    · cases h : st.1.cache.lookup k <;> simp [h]
  | cons x l ih =>
    obtain ⟨a, b⟩ := x
    obtain ⟨ha, hl'⟩ := List.nodupKeys_cons.mp hl
    obtain ⟨c, X⟩ := st
    rw [List.foldl_cons]
    obtain ⟨ih1, ih2, ih3⟩ := ih hl' (BulkInsert.step now (c, X) ⟨a, b⟩)
    rw [ih1, ih2, ih3]
    unfold BulkInsert.step
    cases hca : c.cache.lookup a with
    | some e =>
      simp only []
      by_cases hk : k = a
      · subst hk
        simp [hca, List.dlookup_eq_none.mpr ha, Finmap.lookup_insert]
      · have hd : List.dlookup k (⟨a, b⟩ :: l) = List.dlookup k l :=
          List.dlookup_cons_ne l ⟨a, b⟩ hk
        simp only [hd, Finmap.lookup_insert_of_ne _ hk]
        exact ⟨trivial, trivial, trivial⟩
    | none =>
      simp only []
      by_cases hk : k = a
      · subst hk
        simp [hca, List.dlookup_eq_none.mpr ha, Finmap.lookup_insert]
      · have hd : List.dlookup k (⟨a, b⟩ :: l) = List.dlookup k l :=
          List.dlookup_cons_ne l ⟨a, b⟩ hk
        simp only [hd, Finmap.lookup_insert_of_ne _ hk]
        exact ⟨trivial, trivial, trivial⟩

/-- A map with no key is the empty map. -/
theorem Finmap_eq_empty_of_card {β : String → Type} (X : Finmap β) :
    X.keys.card = 0 ↔ X = ∅ := by
  constructor
  · intro h
    apply Finmap.ext_lookup
    intro k
    rw [Finmap.lookup_empty, Finmap.lookup_eq_none, ← Finmap.mem_keys,
      Finset.card_eq_zero.mp h]
    exact Finset.not_mem_empty k
  · intro h
    rw [h, Finmap.keys_empty, Finset.card_empty]

/-- The last loop of `Load` returns the map it ranges over. -/
theorem foldl_Load_step {T : Type} (now : Int)
    (m d : Finmap (fun _ : String => cacheEntry T)) :
    Finmap.foldl (Load.step now) (fun _ _ _ _ _ => rfl) d m = d := by
  induction m using Finmap.induction_on with
  | H s =>
    rw [foldl_toFinmap]
    induction s.entries with
    | nil => rfl
    | cons x l ih => rw [List.foldl_cons]; exact ih

/-- Two caches with the same map and the same expiry are the same cache. -/
theorem Cache_ext {T : Type} (c d : Cache T) (h₁ : c.cache = d.cache)
    (h₂ : c.expire = d.expire) : c = d := by
  cases c
  cases d
  simp only [Cache.mk.injEq]
  exact ⟨h₁, h₂⟩

/-- Erasing a key the map does not hold gives the same map. -/
theorem erase_of_not_mem {β : String → Type} (m : Finmap β) (k : String) (h : k ∉ m) :
    m.erase k = m := by
  apply Finmap.ext_lookup
  intro x
  by_cases hx : x = k
  · subst hx
    rw [Finmap.lookup_erase, Finmap.lookup_eq_none.mpr h]
  · exact Finmap.lookup_erase_ne hx

/-- The time since a fixed time grows with the clock. -/
theorem Since_mono (t t' u : Int) (h : t ≤ t') : Since t u ≤ Since t' u := by
  unfold Since Sub minDuration maxDuration
  split_ifs <;> omega

/-- The time since a time that is not after the clock is not negative. -/
theorem Since_nonneg (now t : Int) (h : t ≤ now) : 0 ≤ Since now t := by
  unfold Since Sub minDuration maxDuration
  split_ifs <;> omega

/-! ## Get -/

/-- C1: for every cache, key and call time, `Get` fails with
`InvalidCacheKeyError` exactly when the key is absent from the map, fails with
`OutdatedCacheEntryError` exactly when the key is present and the time since its
last write is at least the expiry, and otherwise, the key present and the time
since its last write below the expiry, returns the stored value with no error.  For a
last write `t ≤ now` and an expiry in the range of a duration, the time since
the last write is at least the expiry exactly when `now - t` is. -/
theorem Get_outcome {T : Type} (c : Cache T) (key : String) (now : Int) :
    ((Get c key now).2 = (none, some Error.InvalidCacheKeyError) ↔
        c.cache.lookup key = none) ∧
    ((Get c key now).2 = (none, some Error.OutdatedCacheEntryError) ↔
        ∃ entry, c.cache.lookup key = some entry ∧ Since now entry.update ≥ c.expire) ∧
    (∀ entry, c.cache.lookup key = some entry → Since now entry.update < c.expire →
        (Get c key now).2 = (some entry.Value, none)) ∧
    (∀ t, t ≤ now → c.expire ≤ maxDuration →
        (Since now t ≥ c.expire ↔ now - t ≥ c.expire)) := by
  refine ⟨?_, ?_, ?_, fun t ht hd => Since_ge_iff now t c.expire ht hd⟩ <;> unfold Get
  all_goals
    cases hl : c.cache.lookup key with
    | none => simp
    | some entry =>
      by_cases hs : Since now entry.update ≥ c.expire
      · simp [hs]
      · simp [hs]

/-- C10: a `Get` that does not fail with `OutdatedCacheEntryError` (the key is
absent, or present and fresh) leaves the cache as it was: the timestamp of the
key is not refreshed, and a later `Get` of the key at any time behaves as on the
cache before the first call. -/
theorem Get_no_refresh {T : Type} (c : Cache T) (key : String) (now : Int)
    (h : (Get c key now).2.2 ≠ some Error.OutdatedCacheEntryError) :
    (Get c key now).1 = c ∧
    (Get c key now).1.cache.lookup key = c.cache.lookup key ∧
    ∀ t', Get (Get c key now).1 key t' = Get c key t' := by
  have hc : (Get c key now).1 = c := by
    unfold Get at h ⊢
    cases hl : c.cache.lookup key with
    | none => rfl
    | some entry =>
      rw [hl] at h
      by_cases hs : Since now entry.update ≥ c.expire
      · simp [hs] at h
      · simp [hs]
  refine ⟨hc, ?_, ?_⟩
  · rw [hc]
  · intro t'
    rw [hc]

/-- Witness of C10 on the sample cache: `"b"`, written at 5, read at 9. -/
theorem Get_no_refresh_witness :
    (Get sample "b" 9).2 = (some 2, none) ∧ (Get sample "b" 9).1 = sample ∧
    (Get (Get sample "b" 9).1 "b" 15).2 = (none, some Error.OutdatedCacheEntryError) :=
  ⟨by decide, (Get_no_refresh sample "b" 9 (by decide)).1, by decide⟩

/-- C3: when `Get` fails with `OutdatedCacheEntryError`, the size after the call
is the size before it minus one, every other key keeps its entry, and a second
`Get` of the key, at any time, fails with `InvalidCacheKeyError`. -/
theorem Get_outdated_evicts {T : Type} (c : Cache T) (key : String) (now : Int)
    (h : (Get c key now).2.2 = some Error.OutdatedCacheEntryError) :
    (Size (Get c key now).1).2 + 1 = (Size c).2 ∧
    (∀ k, k ≠ key → (Get c key now).1.cache.lookup k = c.cache.lookup k) ∧
    (∀ now', (Get (Get c key now).1 key now').2 =
        (none, some Error.InvalidCacheKeyError)) := by
  have hc : key ∈ c.cache ∧ (Get c key now).1 = { c with cache := c.cache.erase key } := by
    unfold Get at h ⊢
    cases hl : c.cache.lookup key with
    | none => rw [hl] at h; simp at h
    | some entry =>
      rw [hl] at h
      by_cases hs : Since now entry.update ≥ c.expire
      · simp [hs, Finmap.mem_of_lookup_eq_some hl]
      · simp [hs] at h
  obtain ⟨hmem, hc⟩ := hc
  rw [hc]
  refine ⟨?_, ?_, ?_⟩
  · simp only [Size, Finmap.keys_erase]
    exact Finset.card_erase_add_one (Finmap.mem_keys.mpr hmem)
  · intro k hk
    exact Finmap.lookup_erase_ne hk
  · intro now'
    simp [Get, Finmap.lookup_erase]

/-- Witness of C3 on the sample cache: `"a"`, written at 0, read at 10. -/
theorem Get_outdated_evicts_witness :
    (Get sample "a" 10).2.2 = some Error.OutdatedCacheEntryError ∧
    (Size (Get sample "a" 10).1).2 + 1 = (Size sample).2 :=
  ⟨by decide, (Get_outdated_evicts sample "a" 10 (by decide)).1⟩

/-! ## Insert and Upsert -/

/-- C2: after `Insert` of an absent key at time `t`, which returns no error,
`Get` of the key at time `t'` returns the inserted value when the time since `t`
is below the expiry and fails with `OutdatedCacheEntryError` when it is at least
the expiry; for `t ≤ t'` and an expiry in the range of a duration the time since
`t` is the difference `t' - t`. -/
theorem Insert_then_Get {T : Type} (c : Cache T) (key : String) (value : T) (t t' : Int)
    (h : c.cache.lookup key = none) :
    (Insert c key value t).2 = none ∧
    (Since t' t < c.expire →
      (Get (Insert c key value t).1 key t').2 = (some value, none)) ∧
    (Since t' t ≥ c.expire →
      (Get (Insert c key value t).1 key t').2 =
        (none, some Error.OutdatedCacheEntryError)) ∧
    (t ≤ t' → c.expire ≤ maxDuration →
      (t' - t < c.expire →
        (Get (Insert c key value t).1 key t').2 = (some value, none)) ∧
      (t' - t ≥ c.expire →
        (Get (Insert c key value t).1 key t').2 =
          (none, some Error.OutdatedCacheEntryError))) := by
  have hfresh : Since t' t < c.expire →
      (Get (Insert c key value t).1 key t').2 = (some value, none) := by
    intro hs
    simp [Insert, h, Get, Finmap.lookup_insert, not_le.mpr hs]
  have hstale : Since t' t ≥ c.expire →
      (Get (Insert c key value t).1 key t').2 =
        (none, some Error.OutdatedCacheEntryError) := by
    intro hs
    simp [Insert, h, Get, Finmap.lookup_insert, hs]
  refine ⟨by simp [Insert, h], hfresh, hstale, ?_⟩
  intro htt hd
  have hiff := Since_ge_iff t' t c.expire htt hd
  refine ⟨fun hlt => hfresh ?_, fun hge => hstale (hiff.mpr hge)⟩
  by_contra hcon
  have := hiff.mp (not_lt.mp hcon)
  omega

/-- Witness of C2: `"c"` is absent from the sample cache; inserted at 20 it is
read at 29 and is outdated at 30. -/
theorem Insert_then_Get_witness :
    sample.cache.lookup "c" = none ∧
    (Get (Insert sample "c" 3 20).1 "c" 29).2 = (some 3, none) ∧
    (Get (Insert sample "c" 3 20).1 "c" 30).2 =
      (none, some Error.OutdatedCacheEntryError) :=
  ⟨by decide,
    (Insert_then_Get sample "c" 3 20 29 (by decide)).2.1 (by decide),
    (Insert_then_Get sample "c" 3 20 30 (by decide)).2.2.1 (by decide)⟩

/-- C4: `Insert` of a key that is present in the map, fresh or not, fails with
`KeyAlreadyExistsError` and returns the cache it was called on: the entry of the
key keeps its value and its timestamp. -/
theorem Insert_existing {T : Type} (c : Cache T) (key : String) (value : T) (now : Int)
    (h : key ∈ c.cache) :
    Insert c key value now = (c, some Error.KeyAlreadyExistsError) ∧
    (Insert c key value now).1.cache.lookup key = c.cache.lookup key := by
  obtain ⟨entry, he⟩ := Finmap.mem_iff.mp h
  have hi : Insert c key value now = (c, some Error.KeyAlreadyExistsError) := by
    simp [Insert, he]
  exact ⟨hi, by rw [hi]⟩

/-- Witness of C4 on the sample cache: `"a"` is stale at 50 and `"b"` is fresh
at 6. -/
theorem Insert_existing_witness :
    "a" ∈ sample.cache ∧ Since 50 0 ≥ sample.expire ∧
    Insert sample "a" 9 50 = (sample, some Error.KeyAlreadyExistsError) :=
  ⟨by decide, by decide, (Insert_existing sample "a" 9 50 (by decide)).1⟩

/-- C5: `Upsert` returns a cache and no error; in that cache the key holds the
given value with the time of the call, every other key holds what it held and
the expiry is the same, so `Get` of the key at a time `t'` with the time since
the call below the expiry returns the value, whatever the key held before. -/
theorem Upsert_overwrites {T : Type} (c : Cache T) (key : String) (value : T) (t : Int) :
    (Upsert c key value t).cache.lookup key = some { Value := value, update := t } ∧
    (∀ k, k ≠ key → (Upsert c key value t).cache.lookup k = c.cache.lookup k) ∧
    (Upsert c key value t).expire = c.expire ∧
    (∀ t', Since t' t < c.expire →
      (Get (Upsert c key value t) key t').2 = (some value, none)) ∧
    (∀ t', t ≤ t' → c.expire ≤ maxDuration → t' - t < c.expire →
      (Get (Upsert c key value t) key t').2 = (some value, none)) := by
  have hfresh : ∀ t', Since t' t < c.expire →
      (Get (Upsert c key value t) key t').2 = (some value, none) := by
    intro t' hs
    simp [Upsert, Get, Finmap.lookup_insert, not_le.mpr hs]
  refine ⟨by simp [Upsert, Finmap.lookup_insert], ?_, rfl, hfresh, ?_⟩
  · intro k hk
    simp [Upsert, Finmap.lookup_insert_of_ne _ hk]
  · intro t' htt hd hlt
    apply hfresh
    by_contra hcon
    have := (Since_ge_iff t' t c.expire htt hd).mp (not_lt.mp hcon)
    omega

/-! ## Bulk operations -/

/-- C6: `BulkInsert` at time `now` leaves every entry present before the call
as it was, stores under every key absent before the call the value the input
map has for it, with timestamp `now`, and nothing when the input map has none,
and keeps the expiry.  The conflicts `X` are the pairs of the input map whose
key was present before the call: when `X` is empty the call returns no map and
no error, and otherwise it returns `X` with `KeyAlreadyExistsError`. -/
theorem BulkInsert_conflicts {T : Type} (c : Cache T) (values : AList (fun _ : String => T))
    (now : Int) :
    (∀ k e, c.cache.lookup k = some e →
      (BulkInsert c values now).1.cache.lookup k = some e) ∧
    (∀ k, c.cache.lookup k = none →
      (BulkInsert c values now).1.cache.lookup k =
        (values.lookup k).map (fun v => { Value := v, update := now })) ∧
    (BulkInsert c values now).1.expire = c.expire ∧
    ∃ X : Finmap (fun _ : String => T),
      (∀ k, k ∈ c.cache → X.lookup k = values.lookup k) ∧
      (∀ k, k ∉ c.cache → X.lookup k = none) ∧
      (X = ∅ → (BulkInsert c values now).2 = (none, none)) ∧
      (X ≠ ∅ →
        (BulkInsert c values now).2 = (some X, some Error.KeyAlreadyExistsError)) := by
  have hfold := fun k =>
    foldl_BulkInsert_step now k values.entries values.nodupKeys (c, ∅)
  have hst : (BulkInsert c values now).1 =
      (values.entries.foldl (BulkInsert.step now) (c, ∅)).1 := by
    unfold BulkInsert
    simp only []
    split_ifs <;> rfl
  refine ⟨?_, ?_, ?_, (values.entries.foldl (BulkInsert.step now) (c, ∅)).2, ?_, ?_, ?_, ?_⟩
  · intro k e he
    rw [hst, (hfold k).1]
    simp only [he]
  · intro k hk
    rw [hst, (hfold k).1]
    simp only [hk]
    rfl
  · rw [hst, (hfold "").2.2]
  · intro k hk
    obtain ⟨e, he⟩ := Finmap.mem_iff.mp hk
    rw [(hfold k).2.1]
    simp only [he]
    unfold AList.lookup
    cases List.dlookup k values.entries <;> simp [Finmap.lookup_empty]
  · intro k hk
    rw [(hfold k).2.1]
    simp only [Finmap.lookup_eq_none.mpr hk, Finmap.lookup_empty]
  · intro hX
    unfold BulkInsert
    simp only []
    rw [if_neg (not_not.mpr ((Finmap_eq_empty_of_card _).mpr hX))]
  · intro hX
    unfold BulkInsert
    simp only []
    rw [if_pos (fun h => hX ((Finmap_eq_empty_of_card _).mp h))]

/-- C7: `BulkUpsert` at time `now` returns the state reached by applying
`Upsert` at the one time `now` to every pair of the input map: every key of the
input map holds the value of the input map with timestamp `now`, every other key
holds what it held, and the expiry is the same. -/
theorem BulkUpsert_refines {T : Type} (c : Cache T) (values : AList (fun _ : String => T))
    (now : Int) :
    BulkUpsert c values now = BulkUpsert_spec c values now ∧
    (∀ k v, values.lookup k = some v →
      (BulkUpsert c values now).cache.lookup k = some { Value := v, update := now }) ∧
    (∀ k, values.lookup k = none →
      (BulkUpsert c values now).cache.lookup k = c.cache.lookup k) ∧
    (BulkUpsert c values now).expire = c.expire := by
  refine ⟨rfl, ?_, ?_, foldl_insert_expire now values.entries c⟩
  · intro k v hv
    unfold BulkUpsert
    rw [lookup_foldl_insert now k values.entries values.nodupKeys c]
    unfold AList.lookup at hv
    rw [hv]
  · intro k hv
    unfold BulkUpsert
    rw [lookup_foldl_insert now k values.entries values.nodupKeys c]
    unfold AList.lookup at hv
    rw [hv]

/-! ## Expire -/

/-- C8: when the clock reads `now` in every turn of the loop, `Expire` removes
the entries whose time since the last write is at least the expiry and no
other: a key holds an entry afterwards exactly when it held that entry before
and the entry is fresh at `now`, so the entries that stay keep their value and
their timestamp; the expiry is the same.  For a last write `t ≤ now` and an
expiry in the range of a duration, the time since the last write is below the
expiry exactly when `now - t` is. -/
theorem Expire_removes_exactly_stale {T : Type} (c : Cache T) (clock : String → Int)
    (now : Int) (hclock : ∀ k, k ∈ c.cache → clock k = now) :
    (∀ k, k ∈ (Expire c clock).cache ↔
      ∃ e, c.cache.lookup k = some e ∧ Since now e.update < c.expire) ∧
    (∀ k e, (Expire c clock).cache.lookup k = some e ↔
      c.cache.lookup k = some e ∧ Since now e.update < c.expire) ∧
    (Expire c clock).expire = c.expire ∧
    (∀ t, t ≤ now → c.expire ≤ maxDuration →
      (Since now t < c.expire ↔ now - t < c.expire)) := by
  have hl : ∀ k e, (Expire c clock).cache.lookup k = some e ↔
      c.cache.lookup k = some e ∧ Since now e.update < c.expire := by
    intro k e
    rw [Expire_lookup]
    cases hk : c.cache.lookup k with
    | none => simp [Option.filter]
    | some e' =>
      rw [hclock k (Finmap.mem_of_lookup_eq_some hk)]
      by_cases hs : Since now e'.update < c.expire
      · simp only [Option.filter, hs, decide_True, if_true, Option.some.injEq]
        constructor
        · intro h; subst h; exact ⟨rfl, hs⟩
        · intro h; exact h.1
      · simp only [Option.filter, hs, decide_False, Option.some.injEq]
        constructor
        · intro h; simp at h
        · rintro ⟨h, h'⟩; subst h; exact absurd h' hs
  refine ⟨?_, hl, rfl, ?_⟩
  · intro k
    rw [Finmap.mem_iff]
    constructor
    · rintro ⟨e, he⟩
      exact ⟨e, (hl k e).mp he⟩
    · rintro ⟨e, he⟩
      exact ⟨e, (hl k e).mpr he⟩
  · intro t ht hd
    have hiff := Since_ge_iff now t c.expire ht hd
    constructor
    · intro h
      by_contra hcon
      exact absurd (hiff.mpr (not_lt.mp hcon)) (not_le.mpr h)
    · intro h
      by_contra hcon
      exact absurd (hiff.mp (not_lt.mp hcon)) (not_le.mpr h)

/-- Witness of C8 on the sample cache with the clock at 12 in every turn: `"a"`,
written at 0, is removed, and `"b"`, written at 5, stays as it was. -/
theorem Expire_removes_exactly_stale_witness :
    (∀ k, k ∈ sample.cache → (fun _ : String => (12 : Int)) k = 12) ∧
    (Expire sample (fun _ => 12)).cache.lookup "a" = none ∧
    ((Expire sample (fun _ => 12)).cache.lookup "b" = some { Value := 2, update := 5 } ↔
      sample.cache.lookup "b" = some { Value := 2, update := 5 } ∧
        Since 12 5 < sample.expire) ∧
    (Expire sample (fun _ => 12)).cache.lookup "b" = some { Value := 2, update := 5 } :=
  ⟨fun _ _ => rfl, by decide,
    (Expire_removes_exactly_stale sample (fun _ => 12) 12 (fun _ _ => rfl)).2.1 "b"
      { Value := 2, update := 5 },
    by decide⟩

/-- With a clock that ticks inside the loop, `Expire` judges every entry at the
reading of its own turn: of two entries written at the same time one stays and
one is removed. -/
theorem Expire_ticking_clock :
    (Expire twins tickingClock).cache.lookup "x" = some { Value := 1, update := 0 } ∧
    (Expire twins tickingClock).cache.lookup "y" = none := by
  decide

/-! ## Load -/

/-- C9, evaluated: a new cache of expiry three seconds loads a file whose one
member is `"0"`.  `Load` returns no error, the entry of `"0"` carries the zero
time and not the time of the call, and `Get` of `"0"` at the time of the call
fails with `OutdatedCacheEntryError`. -/
theorem Load_leaves_zero_time :
    (Load sampleEnv (NewCache 3000000000) "test_data/cache_dump.json" Json sampleNow).2
      = none ∧
    (Load sampleEnv (NewCache 3000000000) "test_data/cache_dump.json" Json
        sampleNow).1.cache.lookup "0" = some { Value := 7, update := zeroTime } ∧
    zeroTime ≠ sampleNow ∧
    (Get (Load sampleEnv (NewCache 3000000000) "test_data/cache_dump.json" Json
        sampleNow).1 "0" sampleNow).2 = (none, some Error.OutdatedCacheEntryError) := by
  decide

/-! ## Delete, Flush and Size -/

/-- C11: `Delete` removes the key when the map holds it and returns the cache it
was called on when the map does not; either way every other key holds what it
held, the expiry is the same, and a `Get` of the key that follows, at any time,
fails with `InvalidCacheKeyError`. -/
theorem Delete_removes {T : Type} (c : Cache T) (key : String) :
    (Delete c key).cache.lookup key = none ∧
    (key ∉ c.cache → Delete c key = c) ∧
    (∀ k, k ≠ key → (Delete c key).cache.lookup k = c.cache.lookup k) ∧
    (Delete c key).expire = c.expire ∧
    (∀ now, (Get (Delete c key) key now).2 = (none, some Error.InvalidCacheKeyError)) := by
  refine ⟨Finmap.lookup_erase key c.cache, ?_, ?_, rfl, ?_⟩
  · intro h
    exact Cache_ext _ _ (erase_of_not_mem c.cache key h) rfl
  · intro k hk
    exact Finmap.lookup_erase_ne hk
  · intro now
    simp [Get, Delete, Finmap.lookup_erase]

/-- C12: after `Flush` the size is 0 and the expiry is the one before; `Flush`
of a cache whose map is empty returns that cache, so a second `Flush` changes
nothing and the size stays 0. -/
theorem Flush_empties {T : Type} (c : Cache T) :
    (Size (Flush c)).2 = 0 ∧
    (Flush c).expire = c.expire ∧
    (c.cache = ∅ → Flush c = c) ∧
    Flush (Flush c) = Flush c ∧
    (Size (Flush (Flush c))).2 = 0 := by
  refine ⟨rfl, rfl, ?_, rfl, rfl⟩
  intro h
  exact Cache_ext _ _ h.symm rfl

/-- C13: `Size` returns the number of keys of the map and the cache it was
called on; it reads no clock, and every key the map holds, fresh or stale,
counts for one; an `Insert` of an absent key, which returns no error, raises
the size by one. -/
theorem Size_counts_keys {T : Type} (c : Cache T) :
    (Size c).2 = c.cache.keys.card ∧
    (Size c).1 = c ∧
    (∀ k, k ∈ c.cache → (Size c).2 = (Size (Delete c k)).2 + 1) ∧
    (∀ k now, isStale c k now = true → k ∈ (Size c).1.cache ∧ 0 < (Size c).2) ∧
    (∀ k v now, c.cache.lookup k = none →
      (Insert c k v now).2 = none ∧
      (Size (Insert c k v now).1).2 = (Size c).2 + 1) := by
  refine ⟨rfl, rfl, ?_, ?_, ?_⟩
  · intro k hk
    simp only [Size, Delete, Finmap.keys_erase]
    exact (Finset.card_erase_add_one (Finmap.mem_keys.mpr hk)).symm
  · intro k now hs
    have hk : k ∈ c.cache := by
      unfold isStale at hs
      cases hl : c.cache.lookup k with
      | none => rw [hl] at hs; simp at hs
      | some e => exact Finmap.mem_of_lookup_eq_some hl
    exact ⟨hk, Finset.card_pos.mpr ⟨k, Finmap.mem_keys.mpr hk⟩⟩
  · intro k v now hk
    have hnot : k ∉ c.cache.keys := by
      rw [Finmap.mem_keys]
      exact Finmap.lookup_eq_none.mp hk
    have hkeys : (c.cache.insert k { Value := v, update := now }).keys
        = insert k c.cache.keys := by
      ext x
      simp [Finmap.mem_keys, Finmap.mem_insert]
    simp only [Insert, hk, Size, hkeys, true_and]
    exact Finset.card_insert_of_not_mem hnot

/-! ## Expire twice -/

/-- C14: when the clock reads `now` in every turn of a first `Expire` and of a
second `Expire` that follows it, the two calls give the cache that the first
one gives: the second call finds every entry fresh and removes nothing. -/
theorem Expire_idempotent {T : Type} (c : Cache T) (clock₁ clock₂ : String → Int)
    (now : Int) (h₁ : ∀ k, k ∈ c.cache → clock₁ k = now)
    (h₂ : ∀ k, k ∈ c.cache → clock₂ k = now) :
    Expire (Expire c clock₁) clock₂ = Expire c clock₁ ∧
    (∀ k, k ∈ (Expire c clock₁).cache → k ∈ (Expire (Expire c clock₁) clock₂).cache) := by
  have heq : Expire (Expire c clock₁) clock₂ = Expire c clock₁ := by
    refine Cache_ext _ _ ?_ rfl
    apply Finmap.ext_lookup
    intro k
    rw [Expire_lookup (Expire c clock₁) clock₂ k, Expire_lookup c clock₁ k]
    have he : (Expire c clock₁).expire = c.expire := rfl
    rw [he]
    cases hk : c.cache.lookup k with
    | none => rfl
    | some e =>
      have hmem : k ∈ c.cache := Finmap.mem_of_lookup_eq_some hk
      rw [h₁ k hmem, h₂ k hmem]
      by_cases hs : Since now e.update < c.expire
      · simp [Option.filter, hs]
      · simp [Option.filter, hs]
  refine ⟨heq, ?_⟩
  intro k hk
  rw [heq]
  exact hk

/-- Witness of C14 on the sample cache with the clock at 12 in every turn of
both calls: one entry is left after the first call and after the second. -/
theorem Expire_idempotent_witness :
    (∀ k, k ∈ sample.cache → (fun _ : String => (12 : Int)) k = 12) ∧
    Expire (Expire sample (fun _ => 12)) (fun _ => 12) = Expire sample (fun _ => 12) ∧
    (Size (Expire sample (fun _ => 12))).2 = 1 :=
  ⟨fun _ _ => rfl,
    (Expire_idempotent sample (fun _ => 12) (fun _ => 12) 12 (fun _ _ => rfl)
      (fun _ _ => rfl)).1,
    by decide⟩

/-! ## NewCache -/

/-- C15: `NewCache` takes every duration and returns a cache with no entry, of
size 0, with that duration as expiry.  In a cache whose expiry is zero or
negative, every entry whose last write is not after the clock is stale: `Get`
of its key fails with `OutdatedCacheEntryError` and returns no value, and so
does `Get` of a key written by `Upsert` or `Insert` into the new cache. -/
theorem NewCache_expiry {T : Type} (cacheExpiry : Int) :
    (NewCache cacheExpiry : Cache T).cache = ∅ ∧
    (Size (NewCache cacheExpiry : Cache T)).2 = 0 ∧
    (NewCache cacheExpiry : Cache T).expire = cacheExpiry ∧
    (∀ c : Cache T, c.expire ≤ 0 → ∀ k e now, c.cache.lookup k = some e →
      e.update ≤ now →
      (Get c k now).2 = (none, some Error.OutdatedCacheEntryError)) ∧
    (cacheExpiry ≤ 0 → ∀ (k : String) (v : T) (t now : Int), t ≤ now →
      (Get (Upsert (NewCache cacheExpiry) k v t) k now).2
        = (none, some Error.OutdatedCacheEntryError) ∧
      (Get (Insert (NewCache cacheExpiry) k v t).1 k now).2
        = (none, some Error.OutdatedCacheEntryError)) := by
  have hgen : ∀ c : Cache T, c.expire ≤ 0 → ∀ k e now, c.cache.lookup k = some e →
      e.update ≤ now →
      (Get c k now).2 = (none, some Error.OutdatedCacheEntryError) := by
    intro c hc k e now hl hle
    have h0 := Since_nonneg now e.update hle
    have hs : Since now e.update ≥ c.expire := le_trans hc h0
    simp [Get, hl, hs]
  refine ⟨rfl, rfl, rfl, hgen, ?_⟩
  intro hd k v t now ht
  constructor
  · apply hgen (Upsert (NewCache cacheExpiry) k v t) hd k { Value := v, update := t } now
    · simp [Upsert, Finmap.lookup_insert]
    · exact ht
  · apply hgen (Insert (NewCache cacheExpiry) k v t).1 ?_ k { Value := v, update := t } now
    · simp [Insert, NewCache, Finmap.lookup_empty, Finmap.lookup_insert]
    · exact ht
    · simp [Insert, NewCache, Finmap.lookup_empty]
      exact hd

/-! ## File formats -/

/-- C17: when the path resolves and the file is read, `Load` with a format that
is neither `Json` nor `Yaml` fails with `UnknownFileFormatError` and returns the
cache it was called on. -/
theorem Load_unknown_format {T : Type} (env : Env T) (c : Cache T) (filePath : String)
    (fileFormat : FileFormat) (now : Int) (absPath : String) (byteValue : List Nat)
    (hAbs : env.Abs filePath = .ok absPath)
    (hRead : env.ReadFile absPath = .ok byteValue)
    (hJson : fileFormat ≠ Json) (hYaml : fileFormat ≠ Yaml) :
    Load env c filePath fileFormat now = (c, some Error.UnknownFileFormatError) ∧
    (Load env c filePath fileFormat now).1.cache = c.cache := by
  have h : Load env c filePath fileFormat now = (c, some Error.UnknownFileFormatError) := by
    unfold Load
    simp only [hAbs, hRead, if_neg hJson, if_neg hYaml]
  exact ⟨h, by rw [h]⟩

/-- Witness of C17: the sample cache loads a readable file with format 2. -/
theorem Load_unknown_format_witness :
    Load sampleEnv sample "test_data/cache_dump.gob" 2 sampleNow
      = (sample, some Error.UnknownFileFormatError) :=
  (Load_unknown_format sampleEnv sample "test_data/cache_dump.gob" 2 sampleNow
    "test_data/cache_dump.gob" [] rfl rfl (by decide) (by decide)).1

/-- C18: `FileFormat.String` is `"json"` for `Json`, which is 0, `"yaml"` for
`Yaml`, which is 1, and `"unknown"` for every other integer, the negative ones
included. -/
theorem FileFormat_String_values (f : FileFormat) :
    Json = 0 ∧ Yaml = 1 ∧
    (f = 0 → FileFormat.String f = "json") ∧
    (f = 1 → FileFormat.String f = "yaml") ∧
    (f ≠ 0 → f ≠ 1 → FileFormat.String f = "unknown") ∧
    (f < 0 → FileFormat.String f = "unknown") := by
  have hother : f ≠ 0 → f ≠ 1 → FileFormat.String f = "unknown" := by
    intro h0 h1
    unfold FileFormat.String Json Yaml
    rw [if_neg h0, if_neg h1]
  refine ⟨rfl, rfl, ?_, ?_, hother, ?_⟩
  · intro h
    subst h
    rfl
  · intro h
    subst h
    rfl
  · intro h
    have h0 : (f : Int) ≠ 0 := ne_of_lt h
    have h1 : (f : Int) ≠ 1 := ne_of_lt (lt_trans h Int.one_pos)
    exact hother h0 h1

/-! ## Stale entries stay stale -/

/-- A call that is no `Upsert`, and no `BulkUpsert` with the key in its input
map, keeps the expiry and either keeps the entry of a key the map holds or
leaves the key with no entry. -/
theorem runOp_lookup {T : Type} (c : Cache T) (key : String) (now : Int) (op : Op T)
    (e : cacheEntry T) (he : c.cache.lookup key = some e)
    (hU : ∀ k v, op ≠ Op.upsert k v)
    (hB : ∀ values, op = Op.bulkUpsert values → values.lookup key = none) :
    (runOp op c now).expire = c.expire ∧
    ((runOp op c now).cache.lookup key = some e ∨
      (runOp op c now).cache.lookup key = none) := by
  cases op with
  | get k =>
    simp only [runOp, Get]
    cases hk : c.cache.lookup k with
    | none => exact ⟨rfl, Or.inl he⟩
    | some e' =>
      by_cases hs : Since now e'.update ≥ c.expire
      · simp only [hs, if_true]
        refine ⟨trivial, ?_⟩
        by_cases hkk : key = k
        · subst hkk
          exact Or.inr (Finmap.lookup_erase key c.cache)
        · exact Or.inl ((Finmap.lookup_erase_ne hkk).trans he)
      · simp only [hs, if_false]
        exact ⟨trivial, Or.inl he⟩
  | upsert k v => exact absurd rfl (hU k v)
  | insert k v =>
    simp only [runOp, Insert]
    cases hk : c.cache.lookup k with
    | some e' => exact ⟨rfl, Or.inl he⟩
    | none =>
      refine ⟨rfl, Or.inl ?_⟩
      have hkk : key ≠ k := by
        intro h
        rw [h, hk] at he
        cases he
      exact (Finmap.lookup_insert_of_ne _ hkk).trans he
  | bulkUpsert values =>
    simp only [runOp, BulkUpsert]
    refine ⟨foldl_insert_expire now values.entries c, Or.inl ?_⟩
    have hv := hB values rfl
    unfold AList.lookup at hv
    rw [lookup_foldl_insert now key values.entries values.nodupKeys c, hv]
    exact he
  | bulkInsert values =>
    have hfold := foldl_BulkInsert_step now key values.entries values.nodupKeys (c, ∅)
    have hst : (BulkInsert c values now).1 =
        (values.entries.foldl (BulkInsert.step now) (c, ∅)).1 := by
      unfold BulkInsert
      simp only []
      split_ifs <;> rfl
    simp only [runOp, hst]
    refine ⟨hfold.2.2, Or.inl ?_⟩
    rw [hfold.1]
    simp only [he]
  | expire clock =>
    simp only [runOp]
    refine ⟨rfl, ?_⟩
    rw [Expire_lookup, he]
    by_cases hs : Since (clock key) e.update < c.expire
    · left
      simp [Option.filter, hs]
    · right
      simp [Option.filter, hs]
  | flush => exact ⟨rfl, Or.inr (Finmap.lookup_empty key)⟩
  | delete k =>
    simp only [runOp, Delete]
    refine ⟨trivial, ?_⟩
    by_cases hkk : key = k
    · subst hkk
      exact Or.inr (Finmap.lookup_erase key c.cache)
    · exact Or.inl ((Finmap.lookup_erase_ne hkk).trans he)
  | size => exact ⟨rfl, Or.inl he⟩

/-- C16 as stated fails: `"a"` is stale in the sample cache at time 50, and
`BulkUpsert` of an input map that holds `"a"`, which is no `Upsert`, makes it
fresh at time 50. -/
theorem BulkUpsert_refreshes_stale :
    isStale sample "a" 50 = true ∧
    (∀ k v, Op.bulkUpsert sampleValues ≠ Op.upsert k v) ∧
    isFresh (runOp (Op.bulkUpsert sampleValues) sample 50) "a" 50 = true :=
  ⟨by decide, fun _ _ h => Op.noConfusion h, by decide⟩

/-- C16, amended: a key that is stale at time `now` is not fresh, at `now` and
at every later time, after one call made at `now` of `Get`, `Insert`,
`BulkInsert`, `Expire` (whatever its loop reads on the clock), `Flush`,
`Delete`, `Size`, or of `BulkUpsert` with an
input map that does not hold the key. -/
theorem stale_stays_stale {T : Type} (c : Cache T) (key : String) (now : Int) (op : Op T)
    (hs : isStale c key now = true)
    (hU : ∀ k v, op ≠ Op.upsert k v)
    (hB : ∀ values, op = Op.bulkUpsert values → values.lookup key = none) :
    ∀ t', now ≤ t' → isFresh (runOp op c now) key t' = false := by
  intro t' ht
  unfold isStale at hs
  cases he : c.cache.lookup key with
  | none => rw [he] at hs; simp at hs
  | some e =>
    rw [he] at hs
    have hstale : Since now e.update ≥ c.expire := by simpa using hs
    obtain ⟨hexp, hl | hl⟩ := runOp_lookup c key now op e he hU hB
    · unfold isFresh
      rw [hl, hexp]
      have := Since_mono now t' e.update ht
      simp only [decide_eq_false_iff_not, not_lt]
      exact le_trans hstale this
    · unfold isFresh
      rw [hl]

/-- Witness of C16, amended: `"a"` is stale in the sample cache at time 50 and
is not fresh after `Insert` of `"a"` at 50. -/
theorem stale_stays_stale_witness :
    isStale sample "a" 50 = true ∧
    isFresh (runOp (Op.insert "a" 9) sample 50) "a" 50 = false :=
  ⟨by decide,
    stale_stays_stale sample "a" 50 (Op.insert "a" 9) (by decide)
      (fun _ _ h => Op.noConfusion h) (fun _ h => Op.noConfusion h) 50 (le_refl 50)⟩

/-! ## The lock in Get -/

/-- C19, evaluated: `"a"` is stale in the sample cache at time 10.  `Get` takes
the lock in its shared form, reads the map, deletes the key and releases the
shared form: a write of the map while the exclusive form is not held.  `Delete`,
`Upsert`, `Flush` and `Insert` write the map under the exclusive form. -/
theorem Get_deletes_under_shared_lock :
    Get.events sample "a" 10
      = [Event.RLock, Event.read, Event.write, Event.RUnlock] ∧
    writesExclusive Guard.free (Get.events sample "a" 10) = false ∧
    writesExclusive Guard.free Delete.events = true ∧
    writesExclusive Guard.free Upsert.events = true ∧
    writesExclusive Guard.free Flush.events = true ∧
    writesExclusive Guard.free (Insert.events sample "c") = true := by
  decide

/-! ## Order of the input map -/

/-- C20: for two input maps with the same pairs visited in different orders,
`BulkInsert` returns the same cache, the same map of conflicts and the same
error. -/
theorem BulkInsert_order_independent {T : Type} (c : Cache T)
    (values₁ values₂ : AList (fun _ : String => T)) (now : Int)
    (hperm : values₁.entries.Perm values₂.entries) :
    BulkInsert c values₁ now = BulkInsert c values₂ now := by
  have hd : ∀ k, List.dlookup k values₁.entries = List.dlookup k values₂.entries :=
    fun k => List.perm_dlookup k values₁.nodupKeys values₂.nodupKeys hperm
  have h₁ := fun k =>
    foldl_BulkInsert_step now k values₁.entries values₁.nodupKeys (c, ∅)
  have h₂ := fun k =>
    foldl_BulkInsert_step now k values₂.entries values₂.nodupKeys (c, ∅)
  have hst : values₁.entries.foldl (BulkInsert.step now) (c, ∅) =
      values₂.entries.foldl (BulkInsert.step now) (c, ∅) := by
    apply Prod.ext
    · refine Cache_ext _ _ ?_ ?_
      · apply Finmap.ext_lookup
        intro k
        rw [(h₁ k).1, (h₂ k).1, hd k]
      · rw [(h₁ "").2.2, (h₂ "").2.2]
    · apply Finmap.ext_lookup
      intro k
      rw [(h₁ k).2.1, (h₂ k).2.1, hd k]
  unfold BulkInsert
  rw [hst]

/-- Witness of C20: the input map with `"a"` and `"z"` in its two orders, on the
sample cache, which holds `"a"`. -/
theorem BulkInsert_order_independent_witness :
    sampleValues.entries ≠ sampleValuesRev.entries ∧
    BulkInsert sample sampleValues 3 = BulkInsert sample sampleValuesRev 3 ∧
    (BulkInsert sample sampleValues 3).2.2 = some Error.KeyAlreadyExistsError :=
  ⟨by decide,
    BulkInsert_order_independent sample sampleValues sampleValuesRev 3 (by decide),
    by decide⟩

end cache
